import Mathlib

/-!
A shallow embedding of the leaderboard library: the namespaced-ID utilities
of `models/participant.go`, the participant repository
(`repos/participant.go` together with the sync/warm-up file) and the
individual leaderboard helper.  Strings are modelled as lists of
characters, float64 scores as rationals, timestamps as integers (seconds).
The DynamoDB table and the Redis store are association lists inside an
explicit state, and every operation also returns the ordered list of store
events it performed, so temporal claims are statements about traces.
-/

abbrev Str : Type := List Char

abbrev Score : Type := ℚ

/-- The separator literal of `CreateNamespacedUserID`: three underscores. -/
def sepChars : Str := ['_', '_', '_']

/-- Holds when, in `leadsWith p s`, `p` is an initial segment of `s`:
the single-position occurrence test used by the split model. -/
def leadsWith : Str → Str → Bool
  | [], _ => true
  | _ :: _, [] => false
  | a :: p, b :: s => if a = b then leadsWith p s else false

/-- Leftmost-occurrence search of the non-overlapping split: the part
before the first occurrence of `sepChars` and the part after it, if
any. -/
def findSep : Str → Option (Str × Str)
  | [] => none
  | c :: rest =>
    if leadsWith sepChars (c :: rest) then
      some ([], (c :: rest).drop sepChars.length)
    else
      match findSep rest with
      | some (b, a) => some (c :: b, a)
      | none => none

/-- Fuelled loop of the non-overlapping leftmost-first split.  The fuel
only bounds recursion depth; `goSplit` always supplies enough fuel, as
each found occurrence consumes the three separator characters. -/
def goSplitF : Nat → Str → List Str
  | 0, s => [s]
  | fuel + 1, s =>
    match findSep s with
    | none => [s]
    | some (b, a) => b :: goSplitF fuel a

/-- Non-overlapping, leftmost-first split of a string on the separator:
the reading of the spec's "exactly one separator occurrence" under which
its round-trip and explicit-failure clauses are coherent (counting
overlapping occurrences would contradict the round-trip property, see
the C3 counterexample). -/
def goSplit (s : Str) : List Str := goSplitF (s.length + 1) s

/-- Modelled from the spec: `CreateNamespacedUserID` of
`models/participant.go`, which is not under `src/`.  The spec fully
determines it: "composed deterministically as clientID + separator +
userID". -/
def CreateNamespacedUserID (clientID userID : Str) : Str :=
  clientID ++ sepChars ++ userID

/-- Modelled from the spec: `SplitNamespacedUserID` of
`models/participant.go`, which is not under `src/`.  Splitting must
"round-trip to the original clientID/userID pair, or fail explicitly if
the record does not contain exactly one separator occurrence"; any shape
other than exactly two parts yields the `("", "")` sentinel, which the
visible `validateNamespacedUserID` of `part_000` reports as the
invalid-format failure. -/
def SplitNamespacedUserID (namespacedUserID : Str) : Str × Str :=
  match goSplit namespacedUserID with
  | [a, b] => (a, b)
  | _ => ([], [])

/-- Modelled from the spec: the participant record of the data model
(`models/participant.go`, not under `src/`). -/
structure ParticipantModel where
  leaderboardID : Str
  namespacedUserID : Str
  clientID : Str
  userID : Str
  score : Score
  updatedAt : Int
deriving DecidableEq

/-- Modelled from the spec: `NewParticipantModel` of
`models/participant.go`, not under `src/`; the current timestamp is an
explicit argument. -/
def NewParticipantModel (leaderboardID clientID userID : Str) (score : Score)
    (now : Int) : ParticipantModel :=
  { leaderboardID := leaderboardID
    namespacedUserID := CreateNamespacedUserID clientID userID
    clientID := clientID
    userID := userID
    score := score
    updatedAt := now }

/-- Modelled from the spec: an authoritative-store item of the
participant table, restricted to the attributes the operations read or
write.  The score-update path creates items carrying only the score and
timestamp; the join path writes the full record with a creation
timestamp. -/
structure Item where
  score : Score
  updatedAt : Int
  clientID : Option Str := none
  userID : Option Str := none
  createdAt : Option Int := none
deriving DecidableEq

abbrev DTable : Type := List ((Str × Str) × Item)

def dGet : DTable → Str × Str → Option Item
  | [], _ => none
  | (k, v) :: t, k' => if k = k' then some v else dGet t k'

def dSet : DTable → Str × Str → Item → DTable
  | [], k, v => [(k, v)]
  | (k0, v0) :: t, k, v => if k0 = k then (k, v) :: t else (k0, v0) :: dSet t k v

/-- Modelled from the spec: the authoritative "atomic
increment-with-default-zero update (creating the record implicitly if
absent)" that also stamps the timestamp, applied to an optional existing
item. -/
def incrItem (old : Option Item) (delta : Score) (now : Int) : Item :=
  match old with
  | none => { score := delta, updatedAt := now }
  | some it => { it with score := it.score + delta, updatedAt := now }

def dIncr (t : DTable) (k : Str × Str) (delta : Score) (now : Int) : DTable :=
  dSet t k (incrItem (dGet t k) delta now)

/-- One Redis key: an ordered set (member/score association) plus an
optional absolute expiry deadline.  A key exists iff its set is
non-empty, which the operations below maintain. -/
structure RVal where
  zset : List (Str × Score)
  deadline : Option Int
deriving DecidableEq

abbrev RTable : Type := List (Str × RVal)

def rGet : RTable → Str → Option RVal
  | [], _ => none
  | (k, v) :: t, k' => if k = k' then some v else rGet t k'

def rSet : RTable → Str → RVal → RTable
  | [], k, v => [(k, v)]
  | (k0, v0) :: t, k, v => if k0 = k then (k, v) :: t else (k0, v0) :: rSet t k v

def rDel : RTable → Str → RTable
  | [], _ => []
  | (k0, v0) :: t, k => if k0 = k then t else (k0, v0) :: rDel t k

def zLookup : List (Str × Score) → Str → Option Score
  | [], _ => none
  | p :: t, m => if p.1 = m then some p.2 else zLookup t m

def zAddMem : List (Str × Score) → Str → Score → List (Str × Score)
  | [], m, s => [(m, s)]
  | p :: t, m, s => if p.1 = m then (m, s) :: t else p :: zAddMem t m s

def zRemMem : List (Str × Score) → Str → List (Str × Score)
  | [], _ => []
  | p :: t, m => if p.1 = m then t else p :: zRemMem t m

/-- The cache mutations a pipeline can queue. -/
inductive CacheOp where
  | del : CacheOp
  | zadd (member : Str) (score : Score) : CacheOp
  | zincrby (member : Str) (delta : Score) : CacheOp
  | zrem (member : Str) : CacheOp
  | expire (duration : Int) : CacheOp
deriving DecidableEq

def applyOp (now : Int) (key : Str) (rt : RTable) : CacheOp → RTable
  | .del => rDel rt key
  | .zadd m s =>
    match rGet rt key with
    | none => rSet rt key ⟨[(m, s)], none⟩
    | some v => rSet rt key ⟨zAddMem v.zset m s, v.deadline⟩
  | .zincrby m d =>
    match rGet rt key with
    | none => rSet rt key ⟨[(m, d)], none⟩
    | some v => rSet rt key ⟨zAddMem v.zset m ((zLookup v.zset m).getD 0 + d), v.deadline⟩
  | .zrem m =>
    match rGet rt key with
    | none => rt
    | some v =>
      match zRemMem v.zset m with
      | [] => rDel rt key
      | z => rSet rt key ⟨z, v.deadline⟩
  | .expire dur =>
    match rGet rt key with
    | none => rt
    | some v => rSet rt key ⟨v.zset, some (now + dur)⟩

def applyOps (now : Int) (key : Str) (rt : RTable) (ops : List CacheOp) : RTable :=
  ops.foldl (applyOp now key) rt

/-- Store events, in the order the operations perform them. -/
inductive Ev where
  | existsCheck (key : Str)
  | dynamoScan (leaderboardID : Str)
  | dynamoUpdate (leaderboardID member : Str)
  | dynamoGet (leaderboardID member : Str)
  | dynamoPut (leaderboardID member : Str)
  | dynamoDelete (leaderboardID member : Str)
  | pipeExec (key : Str) (ops : List CacheOp)
  | zrevrange (key : Str)
  | zscore (key member : Str)
  | zrevrank (key member : Str)
deriving DecidableEq

/-- Error kinds of §7 of the spec, plus `alreadyExists` for the join
gate's abort (the spec mandates the gate but does not name its error
kind; the claims about it only need a non-success outcome). -/
inductive LbError where
  | invalidID
  | notFound
  | storeErr
  | alreadyExists
deriving DecidableEq

/-- The two stores plus fault switches: `scanFails` makes the partition
scan fail (store unreachable), `redisDown` makes Redis calls fail. -/
structure DB where
  dynamo : DTable
  redis : RTable
  scanFails : Bool
  redisDown : Bool
deriving DecidableEq

instance {ε α : Type} [DecidableEq ε] [DecidableEq α] : DecidableEq (Except ε α) :=
  fun x y =>
    match x, y with
    | .error a, .error b => decidable_of_iff (a = b) (by simp)
    | .ok a, .ok b => decidable_of_iff (a = b) (by simp)
    | .error _, .ok _ => isFalse (by intro h; cases h)
    | .ok _, .error _ => isFalse (by intro h; cases h)

structure Res (α : Type) where
  out : Except LbError α
  db : DB
  tr : List Ev
deriving DecidableEq

def lbKeyTag : Str := ['l', 'e', 'a', 'd', 'e', 'r', 'b', 'o', 'a', 'r', 'd', ':']

/-- Model of `getRedisKey`. -/
def getRedisKey (leaderboardID : Str) : Str := lbKeyTag ++ leaderboardID

/-- Model of `setupLeaderboardExpiry`: queue an expiry only when
`leaderboardEndTime + 24h` is strictly in the future. -/
def setupLeaderboardExpiry (leaderboardEndTime now : Int) (pipe : List CacheOp) :
    List CacheOp :=
  let expiryTime := leaderboardEndTime + 86400
  if now < expiryTime then pipe ++ [CacheOp.expire (expiryTime - now)] else pipe

/-- The `(namespacedUserID, score)` projection of the partition query. -/
def queryPartition (t : DTable) (leaderboardID : Str) : List (Str × Score) :=
  (t.filter fun kv => decide (kv.1.1 = leaderboardID)).map fun kv => (kv.1.2, kv.2.score)

/-- Model of `syncLeaderboard`: queue a `Del` and one `ZAdd` per scanned record; a
failing scan reports `true` in the second component, with only the `Del`
queued so far. -/
def syncLeaderboard (db : DB) (leaderboardID : Str) (pipe : List CacheOp) :
    List CacheOp × Bool :=
  let pipe := pipe ++ [CacheOp.del]
  if db.scanFails then (pipe, true)
  else (pipe ++ (queryPartition db.dynamo leaderboardID).map fun r => CacheOp.zadd r.1 r.2,
        false)

/-- The batch `ensureLeaderboardExists` submits when the key is cold: the
sync output, the empty placeholder member when the sync failed, then the
conditional expiry. -/
def coldPipe (db : DB) (leaderboardID : Str) (leaderboardEndTime now : Int) :
    List CacheOp :=
  let s := syncLeaderboard db leaderboardID []
  let pipe := if s.2 then s.1 ++ [CacheOp.zadd [] 0] else s.1
  setupLeaderboardExpiry leaderboardEndTime now pipe

/-- Model of `ensureLeaderboardExists`: existence check, and on a cold key one
atomic pipeline built by `coldPipe`. -/
def ensureLeaderboardExists (db : DB) (leaderboardID : Str)
    (leaderboardEndTime now : Int) : Res Unit :=
  let key := getRedisKey leaderboardID
  if db.redisDown then ⟨.error .storeErr, db, [Ev.existsCheck key]⟩
  else
    match rGet db.redis key with
    | some _ => ⟨.ok (), db, [Ev.existsCheck key]⟩
    | none =>
      let pipe := coldPipe db leaderboardID leaderboardEndTime now
      ⟨.ok (), { db with redis := applyOps now key db.redis pipe },
        [Ev.existsCheck key, Ev.dynamoScan leaderboardID, Ev.pipeExec key pipe]⟩

def zsetOf (rt : RTable) (key : Str) : List (Str × Score) :=
  match rGet rt key with
  | none => []
  | some v => v.zset

def deadlineOf (rt : RTable) (key : Str) : Option Int :=
  match rGet rt key with
  | none => none
  | some v => v.deadline

/-- Modelled from the spec: `UpdateScore` of `repos/participant.go`, not
under `src/` — the authoritative atomic increment-with-zero-default and
timestamp stamp first; "on success, applies the same delta to the
cache's ordered set entry (increment, not absolute set) within the same
call, after first calling `EnsureWarm`". -/
def UpdateScore (db : DB) (leaderboardID namespacedUserID : Str) (scoreDelta : Score)
    (leaderboardEndTime now : Int) : Res Unit :=
  let key := getRedisKey leaderboardID
  let db1 : DB :=
    { db with dynamo := dIncr db.dynamo (leaderboardID, namespacedUserID) scoreDelta now }
  let pipe := [CacheOp.zincrby namespacedUserID scoreDelta]
  let e := ensureLeaderboardExists db1 leaderboardID leaderboardEndTime now
  match e.out with
  | .error er =>
    ⟨.error er, e.db, Ev.dynamoUpdate leaderboardID namespacedUserID :: e.tr⟩
  | .ok _ =>
    ⟨.ok (), { e.db with redis := applyOps now key e.db.redis pipe },
      Ev.dynamoUpdate leaderboardID namespacedUserID :: (e.tr ++ [Ev.pipeExec key pipe])⟩

structure IndividualLeaderboardHelper where
  clientID : Str
  leaderboardID : Str
  leaderboardEndTime : Int
deriving DecidableEq

/-- Model of `validateNamespacedUserID` from the helper: split, then reject when
either component came back empty. -/
def IndividualLeaderboardHelper.validateNamespacedUserID
    (_l : IndividualLeaderboardHelper) (namespacedUserID : Str) :
    Except LbError (Str × Str) :=
  let p := SplitNamespacedUserID namespacedUserID
  if p.1 = [] ∨ p.2 = [] then .error .invalidID else .ok p

/-- The repository method the helper delegates to (`l.repo.UpdateScore` in
the source); a plain alias of `UpdateScore` above, needed because inside
the helper's own `UpdateScore` the unqualified name is shadowed. -/
def repoUpdateScore : DB → Str → Str → Score → Int → Int → Res Unit :=
  UpdateScore

/-- The helper's `UpdateScore`: validate, rebuild the participant from the
helper's own `clientID` and the split-off `userID`, and delegate. -/
def IndividualLeaderboardHelper.UpdateScore (l : IndividualLeaderboardHelper)
    (db : DB) (namespacedUserID : Str) (scoreDelta : Score) (now : Int) : Res Unit :=
  match l.validateNamespacedUserID namespacedUserID with
  | .error er => ⟨.error er, db, []⟩
  | .ok p =>
    let participant := NewParticipantModel l.leaderboardID l.clientID p.2 scoreDelta now
    repoUpdateScore db l.leaderboardID participant.namespacedUserID
      participant.score l.leaderboardEndTime now

def isScanEv : Ev → Bool
  | .dynamoScan _ => true
  | _ => false

def isExpireOp : CacheOp → Bool
  | .expire _ => true
  | _ => false

/-! Concrete states used by counterexamples and witnesses. -/

def db5e : DB := ⟨[], [], false, false⟩

def vWarm : RVal := ⟨[(['a'], 1)], none⟩

def dbWarm : DB := ⟨[], [(getRedisKey ['L'], vWarm)], false, false⟩

def db6 : DB := ⟨[((['L'], ['m']), { score := 7, updatedAt := 0 })], [], false, false⟩

def db7 : DB := ⟨[], [], true, false⟩

theorem ensure_warm_noop (db : DB) (lb : Str) (endT now : Int) (v : RVal)
    (hdown : db.redisDown = false) (hwarm : rGet db.redis (getRedisKey lb) = some v) :
    ensureLeaderboardExists db lb endT now
      = ⟨.ok (), db, [Ev.existsCheck (getRedisKey lb)]⟩ := by
  simp [ensureLeaderboardExists, hdown, hwarm]

theorem ensure_ok_of_up (db : DB) (lb : Str) (endT now : Int)
    (hdown : db.redisDown = false) :
    (ensureLeaderboardExists db lb endT now).out = .ok () := by
  cases hr : rGet db.redis (getRedisKey lb) <;>
    simp [ensureLeaderboardExists, hdown, hr]

theorem ensure_fields (db : DB) (lb : Str) (endT now : Int) :
    (ensureLeaderboardExists db lb endT now).db.dynamo = db.dynamo ∧
    (ensureLeaderboardExists db lb endT now).db.redisDown = db.redisDown := by
  cases hd : db.redisDown with
  | true => simp [ensureLeaderboardExists, hd]
  | false =>
    cases hr : rGet db.redis (getRedisKey lb) with
    | none => simp [ensureLeaderboardExists, hd, hr]
    | some v => simp [ensureLeaderboardExists, hd, hr]

/-- Claim C5 counterexample: with an empty authoritative partition and a
successful scan, warm-up inserts no member, so the cache key still does
not exist afterwards and an immediately following `EnsureWarm` scans the
authoritative store again — two scans for two successive calls. -/
theorem c5_cex :
    ((ensureLeaderboardExists db5e ['L'] 0 0).tr
      ++ (ensureLeaderboardExists (ensureLeaderboardExists db5e ['L'] 0 0).db
            ['L'] 0 0).tr).countP isScanEv = 2 := by
  decide

/-- Claim C5 (amended): when the cache key exists, `EnsureWarm` is a
complete no-op (same state, only the existence-check event, so no scan,
no population and no expiry refresh); consequently two successive calls
scan at most once provided the first call leaves the cache key existing
(which fails only for a successfully scanned empty partition). -/
theorem c5_warmNoop (db db0 : DB) (lb : Str) (endT now : Int) (v w : RVal)
    (hdown : db.redisDown = false)
    (hwarm : rGet db.redis (getRedisKey lb) = some v)
    (hdown0 : db0.redisDown = false)
    (hkey0 : rGet (ensureLeaderboardExists db0 lb endT now).db.redis (getRedisKey lb)
      = some w) :
    ensureLeaderboardExists db lb endT now
      = ⟨.ok (), db, [Ev.existsCheck (getRedisKey lb)]⟩ ∧
    ((ensureLeaderboardExists (ensureLeaderboardExists db0 lb endT now).db
        lb endT now).tr).countP isScanEv = 0 := by
  constructor
  · exact ensure_warm_noop db lb endT now v hdown hwarm
  · have hdown1 : (ensureLeaderboardExists db0 lb endT now).db.redisDown = false :=
      (ensure_fields db0 lb endT now).2.trans hdown0
    rw [ensure_warm_noop _ lb endT now w hdown1 hkey0]
    simp [isScanEv]

/-- Witness for the amended C5 at a concrete warm state. -/
theorem c5_warmNoop_witness :
    ensureLeaderboardExists dbWarm ['L'] 0 0
      = ⟨.ok (), dbWarm, [Ev.existsCheck (getRedisKey ['L'])]⟩ ∧
    ((ensureLeaderboardExists (ensureLeaderboardExists dbWarm ['L'] 0 0).db
        ['L'] 0 0).tr).countP isScanEv = 0 :=
  c5_warmNoop dbWarm dbWarm ['L'] 0 0 vWarm vWarm (by decide) (by decide)
    (by decide) (by decide)

theorem rGet_rSet_self : ∀ (rt : RTable) (k : Str) (v : RVal),
    rGet (rSet rt k v) k = some v := by
  intro rt k v
  induction rt with
  | nil => simp [rSet, rGet]
  | cons p t ih =>
    obtain ⟨k0, v0⟩ := p
    by_cases h : k0 = k
    · simp [rSet, h, rGet]
    · simp [rSet, h, rGet, ih]

theorem mem_of_rGet : ∀ (rt : RTable) (k : Str) (v : RVal),
    rGet rt k = some v → (k, v) ∈ rt := by
  intro rt k v
  induction rt with
  | nil => intro h; simp [rGet] at h
  | cons p t ih =>
    obtain ⟨k0, v0⟩ := p
    intro h
    by_cases hk : k0 = k
    · subst hk
      simp [rGet] at h
      subst h
      exact List.mem_cons_self _ _
    · simp [rGet, hk] at h
      exact List.mem_cons_of_mem _ (ih h)

theorem rGet_none_not_mem : ∀ (rt : RTable) (k : Str),
    rGet rt k = none → ∀ v : RVal, (k, v) ∉ rt := by
  intro rt k
  induction rt with
  | nil => intro _ v hv; simp at hv
  | cons p t ih =>
    obtain ⟨k0, v0⟩ := p
    intro h v hv
    by_cases hk : k0 = k
    · simp [rGet, hk] at h
    · simp [rGet, hk] at h
      rcases List.mem_cons.mp hv with he | ht
    
      · exact hk (congrArg Prod.fst he).symm
      · exact ih h v ht

theorem mem_rSet_elim : ∀ (rt : RTable) (k : Str) (v : RVal) (k' : Str) (v' : RVal),
    (k', v') ∈ rSet rt k v → (k' = k ∧ v' = v) ∨ (k', v') ∈ rt := by
  intro rt k v k' v'
  induction rt with
  | nil =>
    intro h
    simp [rSet] at h
    exact Or.inl ⟨h.1, h.2⟩
  | cons p t ih =>
    obtain ⟨k0, v0⟩ := p
    intro h
    by_cases hk : k0 = k
    · simp only [rSet, hk, if_pos rfl] at h
      rcases List.mem_cons.mp h with he | ht
      · exact Or.inl ⟨(congrArg Prod.fst he), (congrArg Prod.snd he)⟩
      · exact Or.inr (List.mem_cons_of_mem _ ht)
    · simp only [rSet, hk, if_neg hk] at h
      rcases List.mem_cons.mp h with he | ht
      · exact Or.inr (he ▸ List.mem_cons_self _ _)
      · rcases ih ht with hl | hr
        · exact Or.inl hl
        · exact Or.inr (List.mem_cons_of_mem _ hr)

theorem mem_rDel_elim : ∀ (rt : RTable) (k : Str) (p : Str × RVal),
    p ∈ rDel rt k → p ∈ rt := by
  intro rt k p
  induction rt with
  | nil => intro h; simp [rDel] at h
  | cons q t ih =>
    obtain ⟨k0, v0⟩ := q
    intro h
    by_cases hk : k0 = k
    · simp only [rDel, if_pos hk] at h
      exact List.mem_cons_of_mem _ h
    · simp only [rDel, if_neg hk] at h
      rcases List.mem_cons.mp h with he | ht
      · exact he ▸ List.mem_cons_self _ _
      · exact List.mem_cons_of_mem _ (ih ht)

theorem rDel_absent : ∀ (rt : RTable) (k : Str), rGet rt k = none → rDel rt k = rt := by
  intro rt k
  induction rt with
  | nil => intro _; rfl
  | cons p t ih =>
    obtain ⟨k0, v0⟩ := p
    intro h
    by_cases hk : k0 = k
    · simp [rGet, hk] at h
    · simp [rGet, hk] at h
      simp [rDel, hk, ih h]

theorem applyOp_keepQ (now : Int) (key : Str) (rt : RTable) (op : CacheOp)
    (hop : isExpireOp op = false)
    (hQ : ∀ v : RVal, (key, v) ∈ rt → v.deadline = none) :
    ∀ v : RVal, (key, v) ∈ applyOp now key rt op → v.deadline = none := by
  cases op with
  | del => intro v hv; exact hQ v (mem_rDel_elim _ _ _ hv)
  | zadd m s =>
    intro v hv
    cases hr : rGet rt key with
    | none =>
      simp only [applyOp, hr] at hv
      rcases mem_rSet_elim _ _ _ _ _ hv with ⟨-, rfl⟩ | hin
      · rfl
      · exact hQ v hin
    | some w =>
      simp only [applyOp, hr] at hv
      rcases mem_rSet_elim _ _ _ _ _ hv with ⟨-, rfl⟩ | hin
      · exact hQ w (mem_of_rGet _ _ _ hr)
      · exact hQ v hin
  | zincrby m d =>
    intro v hv
    cases hr : rGet rt key with
    | none =>
      simp only [applyOp, hr] at hv
      rcases mem_rSet_elim _ _ _ _ _ hv with ⟨-, rfl⟩ | hin
      · rfl
      · exact hQ v hin
    | some w =>
      simp only [applyOp, hr] at hv
      rcases mem_rSet_elim _ _ _ _ _ hv with ⟨-, rfl⟩ | hin
      · exact hQ w (mem_of_rGet _ _ _ hr)
      · exact hQ v hin
  | zrem m =>
    intro v hv
    cases hr : rGet rt key with
    | none =>
      simp only [applyOp, hr] at hv
      exact hQ v hv
    | some w =>
      cases hz : zRemMem w.zset m with
      | nil =>
        simp only [applyOp, hr, hz] at hv
        exact hQ v (mem_rDel_elim _ _ _ hv)
      | cons a t =>
        simp only [applyOp, hr, hz] at hv
        rcases mem_rSet_elim _ _ _ _ _ hv with ⟨-, rfl⟩ | hin
        · exact hQ w (mem_of_rGet _ _ _ hr)
        · exact hQ v hin
  | expire dur =>
    intro v hv
    simp [isExpireOp] at hop

theorem applyOps_keepQ (now : Int) (key : Str) (ops : List CacheOp) :
    ∀ rt : RTable, ops.countP isExpireOp = 0 →
      (∀ v : RVal, (key, v) ∈ rt → v.deadline = none) →
      ∀ v : RVal, (key, v) ∈ applyOps now key rt ops → v.deadline = none := by
  induction ops with
  | nil =>
    intro rt _ hQ v hv
    exact hQ v (by simpa [applyOps] using hv)
  | cons op t ih =>
    intro rt hcnt hQ v hv
    have hop : isExpireOp op = false := by
      cases hx : isExpireOp op with
      | false => rfl
      | true => rw [List.countP_cons, hx] at hcnt; simp at hcnt
    have ht : t.countP isExpireOp = 0 := by
      rw [List.countP_cons, hop] at hcnt
      simpa using hcnt
    exact ih (applyOp now key rt op) ht (applyOp_keepQ now key rt op hop hQ) v
      (by simpa [applyOps] using hv)

theorem deadline_after_expire (now : Int) (key : Str) (rt' : RTable) (dur : Int) :
    ∀ v : RVal, rGet (applyOp now key rt' (CacheOp.expire dur)) key = some v →
      v.deadline = some (now + dur) := by
  intro v hv
  cases hr : rGet rt' key with
  | none => simp [applyOp, hr] at hv
  | some w =>
    simp only [applyOp, hr, rGet_rSet_self, Option.some.injEq] at hv
    subst hv
    rfl

theorem countP_expire_map_zadd (l : List (Str × Score)) :
    (l.map fun r => CacheOp.zadd r.1 r.2).countP isExpireOp = 0 := by
  induction l with
  | nil => rfl
  | cons p t ih => simp [List.countP_cons, isExpireOp, ih]

theorem sync_no_expire (db : DB) (lb : Str) :
    (syncLeaderboard db lb []).1.countP isExpireOp = 0 := by
  unfold syncLeaderboard
  cases hf : db.scanFails <;>
    simp [hf, List.countP_append, List.countP_cons, isExpireOp, countP_expire_map_zadd]

theorem basePipe_no_expire (db : DB) (lb : Str) :
    ((if (syncLeaderboard db lb []).2 then (syncLeaderboard db lb []).1 ++ [CacheOp.zadd [] 0]
      else (syncLeaderboard db lb []).1)).countP isExpireOp = 0 := by
  cases hx : (syncLeaderboard db lb []).2 <;>
    simp [hx, List.countP_append, List.countP_cons, isExpireOp, sync_no_expire]

theorem coldPipe_scanFail (db : DB) (lb : Str) (endT now : Int)
    (hfail : db.scanFails = true) :
    coldPipe db lb endT now
      = [CacheOp.del, CacheOp.zadd [] 0]
        ++ (if now < endT + 86400 then [CacheOp.expire (endT + 86400 - now)] else []) := by
  simp only [coldPipe, syncLeaderboard, setupLeaderboardExpiry, hfail]
  by_cases ht : now < endT + 86400 <;> simp [ht]

theorem ensure_fail_state (db : DB) (lb : Str) (endT now : Int)
    (hdown : db.redisDown = false)
    (hcold : rGet db.redis (getRedisKey lb) = none)
    (hfail : db.scanFails = true) :
    (ensureLeaderboardExists db lb endT now).out = .ok () ∧
    zsetOf (ensureLeaderboardExists db lb endT now).db.redis (getRedisKey lb)
      = [([], 0)] := by
  have hcp := coldPipe_scanFail db lb endT now hfail
  have h1 : rDel db.redis (getRedisKey lb) = db.redis := rDel_absent _ _ hcold
  refine ⟨ensure_ok_of_up db lb endT now hdown, ?_⟩
  rw [show (ensureLeaderboardExists db lb endT now).db.redis
      = applyOps now (getRedisKey lb) db.redis (coldPipe db lb endT now) from by
    simp [ensureLeaderboardExists, hdown, hcold]]
  rw [hcp]
  by_cases ht : now < endT + 86400 <;>
    simp [ht, applyOps, applyOp, h1, hcold, rGet_rSet_self, zsetOf]

/-- Claim C7: when the scan fails entirely, the warm-up returns success
rather than the scan error, and the submitted batch is exactly the delete
followed by the single empty placeholder member (plus the conditional
expiry), so the cache key exists afterwards with the empty member in it. -/
theorem c7_scanFailFallback (db : DB) (lb : Str) (endT now : Int)
    (hdown : db.redisDown = false)
    (hcold : rGet db.redis (getRedisKey lb) = none)
    (hfail : db.scanFails = true) :
    (ensureLeaderboardExists db lb endT now).out = .ok () ∧
    (ensureLeaderboardExists db lb endT now).tr
      = [Ev.existsCheck (getRedisKey lb), Ev.dynamoScan lb,
         Ev.pipeExec (getRedisKey lb) (coldPipe db lb endT now)] ∧
    coldPipe db lb endT now
      = [CacheOp.del, CacheOp.zadd [] 0]
        ++ (if now < endT + 86400 then [CacheOp.expire (endT + 86400 - now)] else []) ∧
    zLookup (zsetOf (ensureLeaderboardExists db lb endT now).db.redis (getRedisKey lb)) []
      = some 0 := by
  obtain ⟨h1, h2⟩ := ensure_fail_state db lb endT now hdown hcold hfail
  refine ⟨h1, ?_, coldPipe_scanFail db lb endT now hfail, ?_⟩
  · simp [ensureLeaderboardExists, hdown, hcold]
  · rw [h2]
    simp [zLookup]

/-- Witness for C7 at a concrete cold state with a failing scan. -/
theorem c7_scanFailFallback_witness :
    (ensureLeaderboardExists db7 ['L'] 0 0).out = .ok () ∧
    (ensureLeaderboardExists db7 ['L'] 0 0).tr
      = [Ev.existsCheck (getRedisKey ['L']), Ev.dynamoScan ['L'],
         Ev.pipeExec (getRedisKey ['L']) (coldPipe db7 ['L'] 0 0)] ∧
    coldPipe db7 ['L'] 0 0
      = [CacheOp.del, CacheOp.zadd [] 0]
        ++ (if (0 : Int) < 0 + 86400 then [CacheOp.expire (0 + 86400 - 0)] else []) ∧
    zLookup (zsetOf (ensureLeaderboardExists db7 ['L'] 0 0).db.redis (getRedisKey ['L'])) []
      = some 0 :=
  c7_scanFailFallback db7 ['L'] 0 0 rfl rfl rfl

/-- Claim C6: the warm-up batch either ends with an expiry whose absolute
deadline is the leaderboard end time plus the 24-hour grace period (when
that deadline is still in the future, in which case the populated key
carries exactly that deadline), or — when the deadline is not after the
current time — contains no expiry operation at all, leaving the populated
key without a deadline. -/
theorem c6_expiry (db : DB) (lb : Str) (endT now : Int)
    (hdown : db.redisDown = false)
    (hcold : rGet db.redis (getRedisKey lb) = none) :
    (ensureLeaderboardExists db lb endT now).tr
      = [Ev.existsCheck (getRedisKey lb), Ev.dynamoScan lb,
         Ev.pipeExec (getRedisKey lb) (coldPipe db lb endT now)] ∧
    (now < endT + 86400 →
      (coldPipe db lb endT now).getLast? = some (CacheOp.expire (endT + 86400 - now)) ∧
      (deadlineOf (ensureLeaderboardExists db lb endT now).db.redis (getRedisKey lb)
          = some (endT + 86400) ∨
        rGet (ensureLeaderboardExists db lb endT now).db.redis (getRedisKey lb) = none)) ∧
    (endT + 86400 ≤ now →
      (coldPipe db lb endT now).countP isExpireOp = 0 ∧
      deadlineOf (ensureLeaderboardExists db lb endT now).db.redis (getRedisKey lb)
        = none) := by
  have hredis : (ensureLeaderboardExists db lb endT now).db.redis
      = applyOps now (getRedisKey lb) db.redis (coldPipe db lb endT now) := by
    simp [ensureLeaderboardExists, hdown, hcold]
  have hQ0 : ∀ v : RVal, (getRedisKey lb, v) ∈ db.redis → v.deadline = none :=
    fun v hv => absurd hv (rGet_none_not_mem _ _ hcold v)
  refine ⟨by simp [ensureLeaderboardExists, hdown, hcold], ?_, ?_⟩
  · intro ht
    have hcp : coldPipe db lb endT now
        = (if (syncLeaderboard db lb []).2
            then (syncLeaderboard db lb []).1 ++ [CacheOp.zadd [] 0]
            else (syncLeaderboard db lb []).1)
          ++ [CacheOp.expire (endT + 86400 - now)] := by
      simp only [coldPipe, setupLeaderboardExpiry]
      rw [if_pos ht]
    constructor
    · rw [hcp]
      exact List.getLast?_concat _
    · have happ : applyOps now (getRedisKey lb) db.redis (coldPipe db lb endT now)
          = applyOp now (getRedisKey lb)
              (applyOps now (getRedisKey lb) db.redis
                (if (syncLeaderboard db lb []).2
                  then (syncLeaderboard db lb []).1 ++ [CacheOp.zadd [] 0]
                  else (syncLeaderboard db lb []).1))
              (CacheOp.expire (endT + 86400 - now)) := by
        rw [hcp]
        simp [applyOps, List.foldl_append]
      rw [hredis, happ]
      cases hfin : rGet (applyOp now (getRedisKey lb)
          (applyOps now (getRedisKey lb) db.redis
            (if (syncLeaderboard db lb []).2
              then (syncLeaderboard db lb []).1 ++ [CacheOp.zadd [] 0]
              else (syncLeaderboard db lb []).1))
          (CacheOp.expire (endT + 86400 - now))) (getRedisKey lb) with
      | none => exact Or.inr rfl
      | some v =>
        left
        have hd := deadline_after_expire now (getRedisKey lb) _ _ v hfin
        have harith : now + (endT + 86400 - now) = endT + 86400 := by ring
        rw [harith] at hd
        simp [deadlineOf, hfin, hd]
  · intro hge
    have hcp : coldPipe db lb endT now
        = (if (syncLeaderboard db lb []).2
            then (syncLeaderboard db lb []).1 ++ [CacheOp.zadd [] 0]
            else (syncLeaderboard db lb []).1) := by
      simp only [coldPipe, setupLeaderboardExpiry]
      rw [if_neg (by omega : ¬ now < endT + 86400)]
    constructor
    · rw [hcp]
      exact basePipe_no_expire db lb
    · rw [hredis, hcp]
      cases hfin : rGet (applyOps now (getRedisKey lb) db.redis
          (if (syncLeaderboard db lb []).2
            then (syncLeaderboard db lb []).1 ++ [CacheOp.zadd [] 0]
            else (syncLeaderboard db lb []).1)) (getRedisKey lb) with
      | none => simp [deadlineOf, hfin]
      | some v =>
        have := applyOps_keepQ now (getRedisKey lb) _ db.redis
          (basePipe_no_expire db lb) hQ0 v (mem_of_rGet _ _ _ hfin)
        simp [deadlineOf, hfin, this]

/-- Witness for C6 at a concrete cold state whose deadline is in the
future. -/
theorem c6_expiry_witness :
    (ensureLeaderboardExists db6 ['L'] 0 0).tr
      = [Ev.existsCheck (getRedisKey ['L']), Ev.dynamoScan ['L'],
         Ev.pipeExec (getRedisKey ['L']) (coldPipe db6 ['L'] 0 0)] ∧
    ((0 : Int) < 0 + 86400 →
      (coldPipe db6 ['L'] 0 0).getLast? = some (CacheOp.expire (0 + 86400 - 0)) ∧
      (deadlineOf (ensureLeaderboardExists db6 ['L'] 0 0).db.redis (getRedisKey ['L'])
          = some (0 + 86400) ∨
        rGet (ensureLeaderboardExists db6 ['L'] 0 0).db.redis (getRedisKey ['L']) = none)) ∧
    ((0 : Int) + 86400 ≤ 0 →
      (coldPipe db6 ['L'] 0 0).countP isExpireOp = 0 ∧
      deadlineOf (ensureLeaderboardExists db6 ['L'] 0 0).db.redis (getRedisKey ['L'])
        = none) :=
  c6_expiry db6 ['L'] 0 0 rfl rfl

